import Mathlib

/-!
Verification of the PowerCharge geospatial filtering pipeline.

The definitions below are a shallow embedding of the Python sources
(src/app.py, src/data_fetcher.py).  Machine floats of the source are
modelled as rationals, pandas / GeoJSON attribute values as an explicit
value type, and the shapely planar-geometry collaborator as sets of
points of the real plane (for the buffer builder) or as an abstract
intersection oracle (for the parcel filter, which only forwards to it).
-/

namespace PowerCharge

/-- An attribute value as it may appear in a cadastral dataset: a numeric
JSON value, a string that coerces to a number under float(), or a string
on which float() raises ValueError. -/
inductive PyVal where
  | num : ℚ → PyVal
  | numStr : ℚ → PyVal
  | badStr : String → PyVal
deriving DecidableEq, Repr

/-- Python float() coercion on an attribute value: numeric values and
numeric strings succeed, other strings fail (ValueError). -/
def pyFloat : PyVal → Option ℚ
  | PyVal.num q => some q
  | PyVal.numStr q => some q
  | PyVal.badStr _ => none

/-! ## Unit converter (src/app.py lines 61-65)

The source converts slider values inline: kilometers are divided by 111
and meters by 111000 to obtain degree-based radii. -/

/-- Embeds the inline conversion at src/app.py line 61: km / 111. -/
def km_to_degrees (km : ℚ) : ℚ := km / 111

/-- Embeds the inline conversions at src/app.py lines 62 and 65: m / 111000. -/
def meters_to_degrees (m : ℚ) : ℚ := m / 111000

/-! ## Buffer builder (src/app.py lines 135-150)

Geometry is modelled exactly: a point of the plane is a pair of reals, a
line feature is its vertex list, the region of a shapely buffer call is
the set of points within the given radius of the line (the source's
polygonal approximation is idealised to the exact locus), and union is
set union.  Distances are compared through their squares to avoid square
roots. -/

/-- A point of the geographic plane (longitude, latitude in degrees). -/
abbrev Point : Type := ℝ × ℝ

/-- Squared euclidean distance between two points. -/
def euclDistSq (p q : Point) : ℝ := (p.1 - q.1) ^ 2 + (p.2 - q.2) ^ 2

/-- The point at parameter t along the segment from a to b. -/
def segPt (a b : Point) (t : ℝ) : Point :=
  (a.1 + t * (b.1 - a.1), a.2 + t * (b.2 - a.2))

/-- The set of points lying on a LineString with the given vertex list:
the union of its consecutive closed segments. -/
def linePoints (l : List Point) : Set Point :=
  {p | ∃ i : ℕ, ∃ h : i + 1 < l.length, ∃ t : ℝ, 0 ≤ t ∧ t ≤ 1 ∧
    p = segPt (l.get ⟨i, Nat.lt_of_succ_lt h⟩) (l.get ⟨i + 1, h⟩) t}

/-- shapely line.buffer(r): the set of points within distance r of the
line (src/app.py line 143). -/
def lineBuffer (l : List Point) (r : ℝ) : Set Point :=
  {p | ∃ q ∈ linePoints l, euclDistSq p q ≤ r ^ 2}

/-- Embeds src/app.py lines 135-150: buffer every line independently and
union the resulting regions, starting from the first buffer; an empty
line sequence yields the absent sentinel None. -/
def line_network_buffer (lines : List (List Point)) (r : ℝ) : Option (Set Point) :=
  match lines.map (fun l => lineBuffer l r) with
  | [] => none
  | b :: bs => some (bs.foldl (· ∪ ·) b)

/-- Each set folded into an iterated union is contained in the result,
and so is the initial set. -/
theorem subset_foldl_union (bs : List (Set Point)) (init : Set Point) :
    init ⊆ bs.foldl (· ∪ ·) init ∧ ∀ b ∈ bs, b ⊆ bs.foldl (· ∪ ·) init := by
  induction bs generalizing init with
  | nil => exact ⟨subset_rfl, by simp⟩
  | cons b bs ih =>
    obtain ⟨h1, h2⟩ := ih (init ∪ b)
    refine ⟨subset_trans Set.subset_union_left h1, ?_⟩
    intro c hc
    rcases List.mem_cons.mp hc with rfl | hc
    · exact subset_trans Set.subset_union_right h1
    · exact h2 c hc

/-- A line with at least two vertices passes through its first vertex, so
its buffer is nonempty for any radius. -/
theorem lineBuffer_nonempty (l : List Point) (r : ℝ) (hl : 2 ≤ l.length) :
    (lineBuffer l r).Nonempty := by
  have h1 : 1 < l.length := lt_of_lt_of_le (by norm_num) hl
  have h0 : 0 < l.length := Nat.lt_of_succ_lt h1
  set a : Point := l.get ⟨0, h0⟩ with ha
  refine ⟨a, a, ⟨0, by simpa using h1, 0, le_refl 0, zero_le_one, ?_⟩, ?_⟩
  · simp [segPt, ha]
  · have : euclDistSq a a = 0 := by simp [euclDistSq]
    rw [this]
    positivity

/-- Claim C8: for every non-empty sequence of line features (each a
LineString with at least two vertices) and nonnegative radius r, the
network buffer is present and non-empty and contains every individual
line buffer, none being dropped from the union; for the empty sequence
it returns the absent sentinel None rather than an empty region. -/
theorem line_network_buffer_spec (lines : List (List Point)) (r : ℝ)
    (hr : 0 ≤ r) (hne : lines ≠ []) (hlen : ∀ l ∈ lines, 2 ≤ l.length) :
    (∃ R, line_network_buffer lines r = some R ∧ R.Nonempty ∧
      ∀ l ∈ lines, lineBuffer l r ⊆ R) ∧
    line_network_buffer [] r = none := by
  refine ⟨?_, rfl⟩
  match lines, hne with
  | l0 :: ls, _ =>
    refine ⟨(List.map (fun l => lineBuffer l r) ls).foldl (· ∪ ·) (lineBuffer l0 r),
      by simp [line_network_buffer], ?_, ?_⟩
    · obtain ⟨hinit, _⟩ :=
        subset_foldl_union (List.map (fun l => lineBuffer l r) ls) (lineBuffer l0 r)
      exact (lineBuffer_nonempty l0 r (hlen l0 (List.mem_cons_self l0 ls))).mono hinit
    · intro l hl
      obtain ⟨hinit, hmem⟩ :=
        subset_foldl_union (List.map (fun l => lineBuffer l r) ls) (lineBuffer l0 r)
      rcases List.mem_cons.mp hl with rfl | hl
      · exact hinit
      · exact hmem _ (List.mem_map_of_mem _ hl)

/-- Witness for C8 at a concrete input: one horizontal segment of length
one, radius one. -/
theorem line_network_buffer_spec_witness :
    (∃ R, line_network_buffer [[((0 : ℝ), (0 : ℝ)), (1, 0)]] 1 = some R ∧ R.Nonempty ∧
      ∀ l ∈ [[((0 : ℝ), (0 : ℝ)), (1, 0)]], lineBuffer l 1 ⊆ R) ∧
    line_network_buffer [] 1 = none :=
  line_network_buffer_spec [[((0 : ℝ), (0 : ℝ)), (1, 0)]] 1 (by norm_num) (by simp)
    (by intro l hl; rw [List.mem_singleton] at hl; subst hl; simp)

/-- Claim C9: the unit converter divides kilometers by 111 and meters by
111000, the fixed latitude-independent approximation 1 degree = 111 km =
111000 m; the two conversions are multiplicative inverses of that scale
and agree with each other, with no error condition for any input. -/
theorem unit_converter_spec (km m : ℚ) :
    km_to_degrees km = km / 111 ∧ meters_to_degrees m = m / 111000 ∧
    111 * km_to_degrees km = km ∧ 111000 * meters_to_degrees m = m ∧
    km_to_degrees km = meters_to_degrees (1000 * km) := by
  refine ⟨rfl, rfl, ?_, ?_, ?_⟩
  · rw [km_to_degrees]; field_simp
  · rw [meters_to_degrees]; field_simp
  · rw [km_to_degrees, meters_to_degrees]; ring

/-! ## Parcel data model and contenance filter (src/app.py lines 103-105)

A parcel carries the id column, the contenance attribute and a geometry.
The geometry type is a parameter: the filter stage only forwards
geometries to the shapely intersection oracle, so the embedding keeps
that collaborator abstract (a Boolean-valued predicate), exactly as the
source delegates intersects and is_empty to the geometry library. -/

/-- A row of the parcel GeoDataFrame: id column, contenance column,
geometry column of abstract type. -/
structure Parcel (G : Type) where
  pid : String
  contenance : PyVal
  geom : G
deriving DecidableEq, Repr

/-- pandas astype(float) over the contenance column: coerce every row or
fail the whole batch (ValueError) when any row is non-coercible. -/
def astypeFloat {G : Type} : List (Parcel G) → Option (List (Parcel G × ℚ))
  | [] => some []
  | p :: ps =>
    match pyFloat p.contenance, astypeFloat ps with
    | some q, some rest => some ((p, q) :: rest)
    | _, _ => none

/-- Embeds src/app.py lines 103-105: coerce the contenance column to
float (raising on failure) and keep only rows strictly above the
threshold (4000 in the source). -/
def filter_contenance {G : Type} (parcels : List (Parcel G)) (threshold : ℚ) :
    Except String (List (Parcel G)) :=
  match astypeFloat parcels with
  | none => Except.error "DataFormatError"
  | some rows => Except.ok ((rows.filter (fun pq => threshold < pq.2)).map Prod.fst)

/-- When every contenance coerces, astype succeeds and pairs each row
with its value. -/
theorem astypeFloat_ok {G : Type} (parcels : List (Parcel G))
    (h : ∀ p ∈ parcels, (pyFloat p.contenance).isSome) :
    astypeFloat parcels =
      some (parcels.map (fun p => (p, (pyFloat p.contenance).getD 0))) := by
  induction parcels with
  | nil => rfl
  | cons p ps ih =>
    have hp : (pyFloat p.contenance).isSome := h p (List.mem_cons_self p ps)
    obtain ⟨q, hq⟩ := Option.isSome_iff_exists.mp hp
    have hps := ih (fun x hx => h x (List.mem_cons_of_mem p hx))
    simp [astypeFloat, hq, hps]

/-- When some contenance fails to coerce, astype fails. -/
theorem astypeFloat_err {G : Type} (parcels : List (Parcel G))
    (h : ∃ p ∈ parcels, pyFloat p.contenance = none) :
    astypeFloat parcels = none := by
  induction parcels with
  | nil => simp at h
  | cons p ps ih =>
    rcases h with ⟨x, hx, hnone⟩
    rcases List.mem_cons.mp hx with rfl | hx
    · simp [astypeFloat, hnone]
    · have := ih ⟨x, hx, hnone⟩
      cases hq : pyFloat p.contenance <;> simp [astypeFloat, hq, this]

/-- Filtering the paired rows on the value and projecting back is
filtering the rows on their coerced contenance. -/
theorem filter_pairs_eq {G : Type} (parcels : List (Parcel G)) (v : Parcel G → ℚ) (t : ℚ) :
    ((parcels.map (fun p => (p, v p))).filter (fun pq => t < pq.2)).map Prod.fst =
      parcels.filter (fun p => t < v p) := by
  induction parcels with
  | nil => rfl
  | cons p ps ih =>
    by_cases hc : t < v p <;> simp [List.filter_cons, hc, ih]

/-- Claim C7: on a batch whose contenance values all coerce, the filter
with no buffer constraints returns exactly the parcels whose contenance
strictly exceeds the threshold, a parcel equal to the threshold being
excluded; when any contenance fails to coerce, the whole batch fails
with a DataFormatError instead of dropping the parcel. -/
theorem filter_contenance_spec {G : Type} (P : List (Parcel G)) (t : ℚ) :
    ((∀ p ∈ P, (pyFloat p.contenance).isSome) →
      filter_contenance P t =
        Except.ok (P.filter (fun p => t < (pyFloat p.contenance).getD 0)) ∧
      ∀ p ∈ P, pyFloat p.contenance = some t →
        p ∉ P.filter (fun p => t < (pyFloat p.contenance).getD 0)) ∧
    ((∃ p ∈ P, pyFloat p.contenance = none) →
      filter_contenance P t = Except.error "DataFormatError") := by
  constructor
  · intro h
    constructor
    · rw [filter_contenance, astypeFloat_ok P h]
      exact congrArg Except.ok (filter_pairs_eq P (fun p => (pyFloat p.contenance).getD 0) t)
    · intro p _ hp hmem
      have := (List.mem_filter.mp hmem).2
      rw [hp] at this
      simp at this
  · intro h
    rw [filter_contenance, astypeFloat_err P h]

/-- Witness for C7: a two-parcel batch at threshold 4000 keeps only the
5000 m2 parcel and drops the one at exactly 4000; a batch with a
non-coercible contenance fails whole. -/
theorem filter_contenance_spec_witness :
    filter_contenance
        [⟨"A", PyVal.num 5000, ()⟩, ⟨"B", PyVal.num 4000, ()⟩] (4000 : ℚ) =
      Except.ok
        ([(⟨"A", PyVal.num 5000, ()⟩ : Parcel Unit), ⟨"B", PyVal.num 4000, ()⟩].filter
          (fun p => (4000 : ℚ) < (pyFloat p.contenance).getD 0)) ∧
    filter_contenance [(⟨"C", PyVal.badStr "x", ()⟩ : Parcel Unit)] (4000 : ℚ) =
      Except.error "DataFormatError" :=
  ⟨((filter_contenance_spec
      [⟨"A", PyVal.num 5000, ()⟩, ⟨"B", PyVal.num 4000, ()⟩] 4000).1 (by decide)).1,
    (filter_contenance_spec [⟨"C", PyVal.badStr "x", ()⟩] 4000).2
      ⟨⟨"C", PyVal.badStr "x", ()⟩, by simp, rfl⟩⟩

/-! ## Buffer zones and the buffer filter stage (src/app.py lines 130-164)

The shapely collaborator appears as four parameters: the Boolean
intersection test, the emptiness test driving Python truthiness of a
geometry, the binary union of regions, and the buffered unary union used
for road axes.  The decision logic of the source is embedded exactly. -/

/-- Embeds src/app.py line 132: the urban buffer region, present only
when the urban checkbox is enabled. -/
def buffer_zone_urban {B : Type} (pointBuf : B) (afficher_buffer_urban : Bool) : Option B :=
  if afficher_buffer_urban then some pointBuf else none

/-- Embeds src/app.py lines 145-150: when the per-line buffer list is
non-empty and the network checkbox is enabled, fold the buffers into one
union starting from the first; otherwise None. -/
def buffer_zone_network {B : Type} (unionR : B → B → B) (network_buffers : List B)
    (afficher_buffer_network : Bool) : Option B :=
  match network_buffers, afficher_buffer_network with
  | b :: bs, true => some (bs.foldl unionR b)
  | _, _ => none

/-- Embeds src/app.py lines 153-156: when the road-axis line list is
non-empty and the road checkbox is enabled, buffer the unary union of
the lines; otherwise None. -/
def buffer_zone_axes {B L : Type} (unaryUnionBuffer : List L → B) (lines_axes : List L)
    (afficher_buffer_routier : Bool) : Option B :=
  match lines_axes, afficher_buffer_routier with
  | _ :: _, true => some (unaryUnionBuffer lines_axes)
  | _, _ => none

/-- Embeds src/app.py lines 158-164, including the exact operand order
of each Python condition: line 159 tests the urban flag and the urban
zone, line 161 tests the network zone and the URBAN flag, line 163 tests
the axis zone and the road flag.  Python truthiness of a geometry is
non-emptiness. -/
def filter_by_buffers {G B : Type} (intersects : G → B → Bool) (isEmptyR : B → Bool)
    (parcels : List (Parcel G)) (bzUrban bzNetwork bzAxes : Option B)
    (afficher_buffer_urban afficher_buffer_routier : Bool) : List (Parcel G) :=
  let p1 := match bzUrban with
    | some b =>
      if afficher_buffer_urban && !isEmptyR b then
        parcels.filter (fun p => intersects p.geom b)
      else parcels
    | none => parcels
  let p2 := match bzNetwork with
    | some b =>
      if !isEmptyR b && afficher_buffer_urban then
        p1.filter (fun p => intersects p.geom b)
      else p1
    | none => p1
  let p3 := match bzAxes with
    | some b =>
      if !isEmptyR b && afficher_buffer_routier then
        p2.filter (fun p => intersects p.geom b)
      else p2
    | none => p2
  p3

/-- The complete buffer-filtering stage of load_data: build the three
zones from the checkbox flags and raw geometries, then filter. -/
def load_data_filter_stage {G B L : Type} (intersects : G → B → Bool) (isEmptyR : B → Bool)
    (unionR : B → B → B) (unaryUnionBuffer : List L → B) (pointBuf : B)
    (network_buffers : List B) (lines_axes : List L)
    (afficher_buffer_urban afficher_buffer_network afficher_buffer_routier : Bool)
    (parcels : List (Parcel G)) : List (Parcel G) :=
  filter_by_buffers intersects isEmptyR parcels
    (buffer_zone_urban pointBuf afficher_buffer_urban)
    (buffer_zone_network unionR network_buffers afficher_buffer_network)
    (buffer_zone_axes unaryUnionBuffer lines_axes afficher_buffer_routier)
    afficher_buffer_urban afficher_buffer_routier

/-- Modelled from the spec (section 4.3), for refinement comparison with
the code: retain exactly the parcels whose geometry intersects every
enabled buffer region, each buffer gated only by its own enabled flag,
disabled buffers imposing no constraint. -/
def filter_parcels_spec_model {G B : Type} (intersects : G → B → Bool)
    (parcels : List (Parcel G)) (buffers : List (B × Bool)) : List (Parcel G) :=
  parcels.filter (fun p => buffers.all (fun bz => !bz.2 || intersects p.geom bz.1))

/-- The constraint one zone actually imposes on a parcel in the source:
when the zone is present, non-empty and its gate flag is on, the parcel
must intersect it; otherwise no constraint. -/
def zonePred {G B : Type} (intersects : G → B → Bool) (isEmptyR : B → Bool)
    (zone : Option B) (gate : Bool) (p : Parcel G) : Bool :=
  match zone with
  | some b => !(gate && !isEmptyR b) || intersects p.geom b
  | none => true

/-- The zone constraint of an absent zone is vacuous. -/
theorem zonePred_none {G B : Type} (intersects : G → B → Bool) (isEmptyR : B → Bool)
    (gate : Bool) :
    zonePred intersects isEmptyR (none : Option B) gate = fun _ : Parcel G => true :=
  funext fun _ => rfl

/-- The zone constraint of a present zone, unfolded. -/
theorem zonePred_some {G B : Type} (intersects : G → B → Bool) (isEmptyR : B → Bool)
    (b : B) (gate : Bool) :
    zonePred intersects isEmptyR (some b) gate =
      fun p : Parcel G => !(gate && !isEmptyR b) || intersects p.geom b :=
  funext fun _ => rfl

/-- One filtering step of the stage (gate tested before emptiness, as on
line 159) retains exactly the parcels satisfying the zone constraint. -/
theorem zone_step_eq_left {G B : Type} (intersects : G → B → Bool) (isEmptyR : B → Bool)
    (ps : List (Parcel G)) (zone : Option B) (gate : Bool) :
    (match zone with
      | some b =>
        if gate && !isEmptyR b then ps.filter (fun p => intersects p.geom b) else ps
      | none => ps) =
      ps.filter (zonePred intersects isEmptyR zone gate) := by
  cases zone with
  | none => rw [zonePred_none, List.filter_true]
  | some b =>
    show (if gate && !isEmptyR b then ps.filter (fun p => intersects p.geom b) else ps) =
      ps.filter (zonePred intersects isEmptyR (some b) gate)
    rw [zonePred_some]
    cases hgb : (gate && !isEmptyR b) with
    | true => simp
    | false => simp

/-- One filtering step of the stage (emptiness tested before the gate, as
on lines 161 and 163) retains exactly the parcels satisfying the zone
constraint. -/
theorem zone_step_eq_right {G B : Type} (intersects : G → B → Bool) (isEmptyR : B → Bool)
    (ps : List (Parcel G)) (zone : Option B) (gate : Bool) :
    (match zone with
      | some b =>
        if !isEmptyR b && gate then ps.filter (fun p => intersects p.geom b) else ps
      | none => ps) =
      ps.filter (zonePred intersects isEmptyR zone gate) := by
  cases zone with
  | none => rw [zonePred_none, List.filter_true]
  | some b =>
    show (if !isEmptyR b && gate then ps.filter (fun p => intersects p.geom b) else ps) =
      ps.filter (zonePred intersects isEmptyR (some b) gate)
    rw [Bool.and_comm]
    exact zone_step_eq_left intersects isEmptyR ps (some b) gate

/-- The three chained steps amount to one filter by the conjunction of
the three zone constraints. -/
theorem filter_by_buffers_eq {G B : Type} (intersects : G → B → Bool) (isEmptyR : B → Bool)
    (parcels : List (Parcel G)) (bzU bzN bzA : Option B) (u r : Bool) :
    filter_by_buffers intersects isEmptyR parcels bzU bzN bzA u r =
      parcels.filter (fun p =>
        zonePred intersects isEmptyR bzU u p &&
        (zonePred intersects isEmptyR bzN u p && zonePred intersects isEmptyR bzA r p)) := by
  simp only [filter_by_buffers]
  rw [zone_step_eq_left intersects isEmptyR parcels bzU u]
  rw [zone_step_eq_right intersects isEmptyR _ bzN u]
  rw [zone_step_eq_right intersects isEmptyR _ bzA r]
  rw [List.filter_filter, List.filter_filter]
  refine List.filter_congr (fun p _ => ?_)
  cases zonePred intersects isEmptyR bzU u p <;>
    cases zonePred intersects isEmptyR bzN u p <;>
      cases zonePred intersects isEmptyR bzA r p <;> rfl

/-- Counterexample to claim C1 as stated: with the urban buffer disabled
and the network buffer enabled (non-empty buffer list, region [1]), a
parcel whose geometry 0 does not intersect the network region is
nevertheless retained by the code, while the filter the claim describes
(each buffer gated only by its own flag) rejects it; flipping only the
URBAN flag to true makes the network constraint apply and empties the
result, so the network constraint does depend on the urban flag. -/
theorem load_data_filter_network_gating_cex :
    load_data_filter_stage (fun (g : ℕ) (R : List ℕ) => R.contains g) List.isEmpty
        (· ++ ·) (fun _ : List ℕ => ([] : List ℕ)) [0] [[1]] ([] : List ℕ)
        false true false [⟨"P1", PyVal.num 5000, 0⟩] =
      [⟨"P1", PyVal.num 5000, 0⟩] ∧
    load_data_filter_stage (fun (g : ℕ) (R : List ℕ) => R.contains g) List.isEmpty
        (· ++ ·) (fun _ : List ℕ => ([] : List ℕ)) [0] [[1]] ([] : List ℕ)
        true true false [⟨"P1", PyVal.num 5000, 0⟩] = [] ∧
    filter_parcels_spec_model (fun (g : ℕ) (R : List ℕ) => R.contains g)
        [⟨"P1", PyVal.num 5000, 0⟩] [([0], false), ([1], true)] = [] :=
  ⟨rfl, rfl, rfl⟩

/-- Claim C1 (amended): the buffer stage retains exactly the parcels
satisfying the conjunction of the three zone constraints, where a
present non-empty zone whose gate flag is on forces intersection and
every other zone imposes no constraint; the urban and axis constraints
are gated by their own flags, but the network constraint is gated by the
NETWORK flag only through zone construction and additionally by the
URBAN flag at application (src/app.py line 161), so whether it applies
does not depend only on the network flag. -/
theorem load_data_filter_stage_eq {G B L : Type} (intersects : G → B → Bool)
    (isEmptyR : B → Bool) (unionR : B → B → B) (unaryUnionBuffer : List L → B)
    (pointBuf : B) (network_buffers : List B) (lines_axes : List L)
    (u n r : Bool) (parcels : List (Parcel G)) :
    load_data_filter_stage intersects isEmptyR unionR unaryUnionBuffer pointBuf
        network_buffers lines_axes u n r parcels =
      parcels.filter (fun p =>
        zonePred intersects isEmptyR (buffer_zone_urban pointBuf u) u p &&
        (zonePred intersects isEmptyR
            (buffer_zone_network unionR network_buffers n) u p &&
          zonePred intersects isEmptyR
            (buffer_zone_axes unaryUnionBuffer lines_axes r) r p)) := by
  rw [load_data_filter_stage, filter_by_buffers_eq]

/-- Counterexample to claim C2 as stated: the network constraint is
enabled but its underlying line set is empty, yet the code returns the
parcel untouched instead of an empty collection; the enabled-but-empty
constraint is silently dropped. -/
theorem network_empty_fail_open_cex :
    buffer_zone_network (· ++ · : List ℕ → List ℕ → List ℕ) [] true = none ∧
    load_data_filter_stage (fun (g : ℕ) (R : List ℕ) => R.contains g) List.isEmpty
        (· ++ ·) (fun _ : List ℕ => ([] : List ℕ)) [0] ([] : List (List ℕ))
        ([] : List ℕ) true true false [⟨"P1", PyVal.num 5000, 0⟩] =
      [⟨"P1", PyVal.num 5000, 0⟩] :=
  ⟨rfl, rfl⟩

/-- Claim C2 (amended): when a buffer constraint is enabled but its
underlying reference geometry is empty (no network buffers were built),
the zone is the absent sentinel and the constraint is skipped entirely:
the stage behaves exactly as if the constraint were disabled, so
configured-but-empty is NOT distinguishable from not-configured and the
filter does not fail closed. -/
theorem network_empty_enabled_skipped {G B L : Type} (intersects : G → B → Bool)
    (isEmptyR : B → Bool) (unionR : B → B → B) (unaryUnionBuffer : List L → B)
    (pointBuf : B) (lines_axes : List L) (u r : Bool) (parcels : List (Parcel G)) :
    buffer_zone_network unionR ([] : List B) true = none ∧
    load_data_filter_stage intersects isEmptyR unionR unaryUnionBuffer pointBuf
        [] lines_axes u true r parcels =
      load_data_filter_stage intersects isEmptyR unionR unaryUnionBuffer pointBuf
        [] lines_axes u false r parcels :=
  ⟨rfl, rfl⟩

/-! ## Ownership join inside load_data (src/app.py lines 124-126)

The owner table proprietaires_restructured.json maps parcel identifiers
to owner names; the source keeps only parcels whose id is a key of the
table, then maps ids to names. -/

/-- Lookup in the owner dictionary (first matching key). -/
def dictLookup : List (String × String) → String → Option String
  | [], _ => none
  | (k, v) :: rest, key => if k = key then some v else dictLookup rest key

/-- Embeds src/app.py lines 124-126: drop every parcel whose id is not a
key of the owner table, then attach the owner name of each survivor. -/
def enrich_owners {G : Type} (parcels : List (Parcel G))
    (table : List (String × String)) : List (Parcel G × String) :=
  (parcels.filter (fun p => (dictLookup table p.pid).isSome)).map
    (fun p => (p, (dictLookup table p.pid).getD ""))

/-- Claim C10: the enriched collection contains exactly the parcels
whose identifier is a key of the owner lookup table, each paired with
its owner name; a parcel whose identifier is absent from the table is
removed entirely. -/
theorem enrich_owners_mem {G : Type} (parcels : List (Parcel G))
    (table : List (String × String)) (p : Parcel G) (name : String) :
    (p, name) ∈ enrich_owners parcels table ↔
      p ∈ parcels ∧ dictLookup table p.pid = some name := by
  simp only [enrich_owners, List.mem_map, List.mem_filter]
  constructor
  · rintro ⟨q, ⟨hq, hsome⟩, heq⟩
    obtain ⟨v, hv⟩ := Option.isSome_iff_exists.mp hsome
    have h1 : q = p := congrArg Prod.fst heq
    have h2 : (dictLookup table q.pid).getD "" = name := congrArg Prod.snd heq
    subst h1
    refine ⟨hq, ?_⟩
    rw [hv] at h2 ⊢
    rw [Option.getD_some] at h2
    rw [h2]
  · rintro ⟨hp, hlook⟩
    exact ⟨p, ⟨hp, by rw [hlook]; rfl⟩, by rw [hlook]; rfl⟩

/-! ## Arrondissement merger (src/data_fetcher.py lines 591-659)

merge_arrondissements concatenates the feature lists of the district
files, keeping features whose contenance strictly exceeds the threshold;
float() failures on a feature are skipped (continue), every feature read
counts toward total_parcelles and every feature kept toward total_kept.
A feature carries its identifier and the optional contenance property
(props.get with default 0). -/

/-- A GeoJSON feature of a district file: feat.get id and
properties.get contenance (absent key modelled as none, defaulted to 0
at the read site as in the source). -/
structure Feature where
  fid : Option String
  contenance : Option PyVal
deriving DecidableEq, Repr

/-- One iteration of the feature loop at src/data_fetcher.py lines
634-643: count the feature, coerce float(props.get("contenance", 0))
skipping the feature on ValueError, and keep it when strictly above the
threshold. -/
def mergeStep (contenance_min : ℚ) (acc : List Feature × ℕ × ℕ) (feat : Feature) :
    List Feature × ℕ × ℕ :=
  let total := acc.2.1 + 1
  match pyFloat (feat.contenance.getD (PyVal.num 0)) with
  | none => (acc.1, total, acc.2.2)
  | some c =>
    if contenance_min < c then (acc.1 ++ [feat], total, acc.2.2 + 1)
    else (acc.1, total, acc.2.2)

/-- Embeds merge_arrondissements over the already-read district feature
lists: returns the merged features, total_parcelles and total_kept. -/
def merge_arrondissements (districts : List (List Feature)) (contenance_min : ℚ) :
    List Feature × ℕ × ℕ :=
  districts.foldl (fun acc dist => dist.foldl (mergeStep contenance_min) acc) ([], 0, 0)

/-- A feature is retained by the merger exactly when its contenance
coerces and strictly exceeds the threshold. -/
def keepFeature (contenance_min : ℚ) (f : Feature) : Bool :=
  match pyFloat (f.contenance.getD (PyVal.num 0)) with
  | none => false
  | some c => contenance_min < c

/-- Folding the merge step over one feature list appends the retained
features and adds the read and kept counts. -/
theorem foldl_mergeStep (cmin : ℚ) (l : List Feature) (acc : List Feature × ℕ × ℕ) :
    l.foldl (mergeStep cmin) acc =
      (acc.1 ++ l.filter (keepFeature cmin), acc.2.1 + l.length,
        acc.2.2 + (l.filter (keepFeature cmin)).length) := by
  induction l generalizing acc with
  | nil => simp
  | cons f fs ih =>
    rw [List.foldl_cons]
    cases hc : pyFloat (f.contenance.getD (PyVal.num 0)) with
    | none =>
      have hkeep : keepFeature cmin f = false := by simp [keepFeature, hc]
      rw [show mergeStep cmin acc f = (acc.1, acc.2.1 + 1, acc.2.2) from by
        simp [mergeStep, hc]]
      rw [ih]
      simp only [Prod.ext_iff]
      refine ⟨?_, ?_, ?_⟩
      · simp [List.filter_cons, hkeep]
      · simp only [List.length_cons]; omega
      · simp [List.filter_cons, hkeep]
    | some c =>
      by_cases hlt : cmin < c
      · have hkeep : keepFeature cmin f = true := by simp [keepFeature, hc, hlt]
        rw [show mergeStep cmin acc f = (acc.1 ++ [f], acc.2.1 + 1, acc.2.2 + 1) from by
          simp [mergeStep, hc, hlt]]
        rw [ih]
        simp only [Prod.ext_iff]
        refine ⟨?_, ?_, ?_⟩
        · simp [List.filter_cons, hkeep, List.append_assoc]
        · simp only [List.length_cons]; omega
        · simp only [List.filter_cons, hkeep, if_true, List.length_cons]; omega
      · have hkeep : keepFeature cmin f = false := by
          simp [keepFeature, hc]
          exact le_of_not_lt hlt
        rw [show mergeStep cmin acc f = (acc.1, acc.2.1 + 1, acc.2.2) from by
          simp [mergeStep, hc, hlt]]
        rw [ih]
        simp only [Prod.ext_iff]
        refine ⟨?_, ?_, ?_⟩
        · simp [List.filter_cons, hkeep]
        · simp only [List.length_cons]; omega
        · simp [List.filter_cons, hkeep]

/-- Folding the merge over all districts is one pass over the
concatenation of their features. -/
theorem merge_arrondissements_fold (cmin : ℚ) (districts : List (List Feature))
    (acc : List Feature × ℕ × ℕ) :
    districts.foldl (fun acc dist => dist.foldl (mergeStep cmin) acc) acc =
      (acc.1 ++ districts.flatten.filter (keepFeature cmin),
        acc.2.1 + districts.flatten.length,
        acc.2.2 + (districts.flatten.filter (keepFeature cmin)).length) := by
  induction districts generalizing acc with
  | nil => simp
  | cons d ds ih =>
    rw [List.foldl_cons, foldl_mergeStep, ih]
    simp only [Prod.ext_iff, List.flatten_cons, List.filter_append, List.length_append]
    refine ⟨?_, ?_, ?_⟩
    · simp [List.append_assoc]
    · omega
    · omega

/-- Claim C4: the merger returns exactly the features of all districts
whose coercible contenance strictly exceeds the threshold, skipping
coercion failures per-feature; total_parcelles counts every feature
examined and total_kept every feature retained; in particular three
districts of 10, 5 and 0 features with 6 passing yield 6 features and
the counts (15, 6). -/
theorem merge_arrondissements_spec (districts : List (List Feature)) (cmin : ℚ) :
    (merge_arrondissements districts cmin).1 =
      districts.flatten.filter (keepFeature cmin) ∧
    (merge_arrondissements districts cmin).2.1 = districts.flatten.length ∧
    (merge_arrondissements districts cmin).2.2 =
      (districts.flatten.filter (keepFeature cmin)).length ∧
    (∀ d1 d2 d3 : List Feature, d1.length = 10 → d2.length = 5 → d3.length = 0 →
      ((d1 ++ (d2 ++ d3)).filter (keepFeature cmin)).length = 6 →
      (merge_arrondissements [d1, d2, d3] cmin).1.length = 6 ∧
      (merge_arrondissements [d1, d2, d3] cmin).2.1 = 15 ∧
      (merge_arrondissements [d1, d2, d3] cmin).2.2 = 6) := by
  have hfold := merge_arrondissements_fold cmin districts ([], 0, 0)
  refine ⟨?_, ?_, ?_, ?_⟩
  · rw [merge_arrondissements, hfold]; simp
  · rw [merge_arrondissements, hfold]; simp
  · rw [merge_arrondissements, hfold]; simp
  · intro d1 d2 d3 h1 h2 h3 hpass
    have hf := merge_arrondissements_fold cmin [d1, d2, d3] ([], 0, 0)
    have hflat : List.flatten [d1, d2, d3] = d1 ++ (d2 ++ d3) := by simp
    rw [merge_arrondissements, hf, hflat]
    refine ⟨?_, ?_, ?_⟩
    · simpa using hpass
    · simp [List.length_append, h1, h2, h3]
    · simpa using hpass

/-- Witness for C4: three concrete districts of 10, 5 and 0 features at
threshold 4000, six features at 5000 m2 passing. -/
theorem merge_arrondissements_spec_witness :
    (merge_arrondissements
        [List.replicate 6 (⟨some "a", some (PyVal.num 5000)⟩ : Feature) ++
            List.replicate 4 (⟨some "b", some (PyVal.num 1000)⟩ : Feature),
          List.replicate 5 (⟨some "c", some (PyVal.num 1000)⟩ : Feature), []]
        4000).1.length = 6 ∧
    (merge_arrondissements
        [List.replicate 6 (⟨some "a", some (PyVal.num 5000)⟩ : Feature) ++
            List.replicate 4 (⟨some "b", some (PyVal.num 1000)⟩ : Feature),
          List.replicate 5 (⟨some "c", some (PyVal.num 1000)⟩ : Feature), []]
        4000).2.1 = 15 ∧
    (merge_arrondissements
        [List.replicate 6 (⟨some "a", some (PyVal.num 5000)⟩ : Feature) ++
            List.replicate 4 (⟨some "b", some (PyVal.num 1000)⟩ : Feature),
          List.replicate 5 (⟨some "c", some (PyVal.num 1000)⟩ : Feature), []]
        4000).2.2 = 6 :=
  (merge_arrondissements_spec
      [List.replicate 6 (⟨some "a", some (PyVal.num 5000)⟩ : Feature) ++
          List.replicate 4 (⟨some "b", some (PyVal.num 1000)⟩ : Feature),
        List.replicate 5 (⟨some "c", some (PyVal.num 1000)⟩ : Feature), []]
      4000).2.2.2
    (List.replicate 6 (⟨some "a", some (PyVal.num 5000)⟩ : Feature) ++
      List.replicate 4 (⟨some "b", some (PyVal.num 1000)⟩ : Feature))
    (List.replicate 5 (⟨some "c", some (PyVal.num 1000)⟩ : Feature)) []
    (by decide) (by decide) (by decide) (by decide)

/-! ## Event order of the merger (src/data_fetcher.py lines 611-658)

The per-district loop reads each available district file and, when
remove_intermediate is set, deletes that file at the end of its loop
iteration; the merged output file is written only after the loop.  The
observable events of one execution are modelled as a trace; ok
abstracts whether a district file exists and parses as a
FeatureCollection (otherwise the iteration is skipped by continue before
the removal). -/

/-- The observable file-system events of merge_arrondissements. -/
inductive MergeEvent where
  | readDistrict : String → MergeEvent
  | removeIntermediate : String → MergeEvent
  | writeMerged : MergeEvent
deriving DecidableEq, Repr

/-- The event trace of one merge_arrondissements execution: for each
processable district, a read followed (when remove_intermediate) by the
removal of that district file, and after the whole loop a single write
of the merged output (src/data_fetcher.py lines 645-657). -/
def merge_arrondissements_trace (arr_codes : List String) (ok : String → Bool)
    (remove_intermediate : Bool) : List MergeEvent :=
  (arr_codes.foldl
    (fun evs code =>
      if ok code then
        evs ++ [MergeEvent.readDistrict code] ++
          (if remove_intermediate then [MergeEvent.removeIntermediate code] else [])
      else evs) []) ++ [MergeEvent.writeMerged]

/-- Claim C3 evaluated on the code: with remove_intermediate set and two
processable districts, every removal event precedes the single write of
the merged output, which is the last event of the trace; the
intermediate files are deleted before the merged dataset is written. -/
theorem merge_trace_removes_before_write :
    merge_arrondissements_trace ["75101", "75102"] (fun _ => true) true =
      [MergeEvent.readDistrict "75101", MergeEvent.removeIntermediate "75101",
        MergeEvent.readDistrict "75102", MergeEvent.removeIntermediate "75102",
        MergeEvent.writeMerged] ∧
    ((merge_arrondissements_trace ["75101", "75102"] (fun _ => true) true).takeWhile
        (fun e => e != MergeEvent.writeMerged)).contains
      (MergeEvent.removeIntermediate "75101") = true := by
  constructor
  · rfl
  · rfl

/-! ## Identifier batching of the ownership enricher
(src/data_fetcher.py lines 337-339 and 404-411)

chunker(seq, size) yields seq[pos:pos + size] for pos in range(0,
len(seq), size); a Python range with positive step visits
(stop + step - 1) / step values.  The enricher deduplicates the parcel
identifiers and performs one external lookup per chunk of 50. -/

/-- Embeds chunker: the slice seq[pos:pos + size] at each pos produced
by range(0, len(seq), size). -/
def chunker {α : Type} (seq : List α) (size : ℕ) : List (List α) :=
  (List.range ((seq.length + size - 1) / size)).map
    (fun i => (seq.drop (i * size)).take size)

/-- The batches of one commune lookup pass: chunks of 50 unique
identifiers, one external call per chunk (src/data_fetcher.py line 411). -/
def proprietaires_batches (unique_ids : List String) : List (List String) :=
  chunker unique_ids 50

/-- chunker of an empty sequence yields no chunks. -/
theorem chunker_nil {α : Type} (size : ℕ) : chunker ([] : List α) size = [] := by
  rcases Nat.eq_zero_or_pos size with rfl | hs
  · simp [chunker]
  · have h0 : (size - 1) / size = 0 := Nat.div_eq_of_lt (by omega)
    simp [chunker, h0]

/-- chunker unfolds one chunk at a time on a non-empty sequence. -/
theorem chunker_cons_eq {α : Type} (seq : List α) (size : ℕ) (hs : 0 < size)
    (hne : seq ≠ []) :
    chunker seq size = seq.take size :: chunker (seq.drop size) size := by
  have hn : 0 < seq.length := List.length_pos.mpr hne
  set n := seq.length with hn'
  have hcount : (n + size - 1) / size = ((n - size) + size - 1) / size + 1 := by
    rcases le_or_lt n size with hle | hlt
    · have h1 : n - size = 0 := Nat.sub_eq_zero_of_le hle
      have h2 : (0 + size - 1) / size = 0 := Nat.div_eq_of_lt (by omega)
      have h3 : (n + size - 1) / size = 1 := by
        refine Nat.div_eq_of_lt_le (by omega) (by omega)
      rw [h1, h2, h3]
    · have h1 : n + size - 1 = (n - 1) + size := by omega
      have h2 : (n - size) + size - 1 = (n - size - 1) + size := by omega
      have h3 : n - 1 = (n - size - 1) + size := by omega
      rw [h1, h2, Nat.add_div_right _ hs, Nat.add_div_right _ hs, h3,
        Nat.add_div_right _ hs]
  rw [chunker, chunker, ← hn', hcount, List.range_succ_eq_map, List.map_cons]
  refine congrArg₂ _ (by simp) ?_
  rw [List.map_map, List.length_drop, ← hn']
  refine List.map_congr_left (fun i _ => ?_)
  simp only [Function.comp_apply]
  rw [List.drop_drop, Nat.succ_mul, Nat.add_comm (i * size) size]

/-- Concatenating the chunks recovers the sequence. -/
theorem chunker_flatten {α : Type} (size : ℕ) (hs : 0 < size) :
    ∀ (n : ℕ) (seq : List α), seq.length ≤ n → (chunker seq size).flatten = seq := by
  intro n
  induction n with
  | zero =>
    intro seq hle
    have : seq = [] := List.eq_nil_of_length_eq_zero (Nat.le_zero.mp hle)
    subst this
    rw [chunker_nil, List.flatten_nil]
  | succ n ih =>
    intro seq hle
    by_cases hseq : seq = []
    · subst hseq
      rw [chunker_nil, List.flatten_nil]
    · rw [chunker_cons_eq seq size hs hseq, List.flatten_cons,
        ih (seq.drop size) (by rw [List.length_drop]; omega)]
      exact List.take_append_drop size seq

/-- Claim C5: for N unique identifiers and batch size B the enricher
issues exactly (N + B - 1) / B external-lookup calls, the ceiling of
N / B (one session.get per chunk); the chunks partition the identifier
list: their concatenation is the original list, every identifier lies in
some chunk, and no identifier occurs in two distinct chunks; the
implementation instantiates B = 50. -/
theorem chunker_batches_spec {α : Type} (u : List α) (B : ℕ)
    (hB : 0 < B) (hu : u.Nodup) :
    (chunker u B).length = (u.length + B - 1) / B ∧
    (chunker u B).flatten = u ∧
    (∀ x, x ∈ u ↔ ∃ b ∈ chunker u B, x ∈ b) ∧
    List.Pairwise (fun b₁ b₂ => ∀ x ∈ b₁, x ∉ b₂) (chunker u B) := by
  have hflat := chunker_flatten B hB u.length u le_rfl
  refine ⟨by simp [chunker], hflat, ?_, ?_⟩
  · intro x
    conv_lhs => rw [← hflat]
    exact List.mem_flatten
  · have hnodup : (chunker u B).flatten.Nodup := by rw [hflat]; exact hu
    have hpair := (List.nodup_flatten.mp hnodup).2
    exact hpair.imp (fun hd x hx hx2 => hd hx hx2)

/-- Witness for C5: three identifiers in chunks of two give two calls,
the chunks concatenate to the input and are pairwise disjoint. -/
theorem chunker_batches_spec_witness :
    (chunker ["a", "b", "c"] 2).length = ((["a", "b", "c"] : List String).length + 2 - 1) / 2 ∧
    (chunker ["a", "b", "c"] 2).flatten = ["a", "b", "c"] ∧
    (∀ x, x ∈ (["a", "b", "c"] : List String) ↔ ∃ b ∈ chunker ["a", "b", "c"] 2, x ∈ b) ∧
    List.Pairwise (fun b₁ b₂ => ∀ x ∈ b₁, x ∉ b₂) (chunker ["a", "b", "c"] 2) :=
  chunker_batches_spec ["a", "b", "c"] 2 (by norm_num) (by decide)

/-! ## Owner map accumulation (src/data_fetcher.py lines 407-441)

Each batch response is a list of owner entries, each with an optional
id_dnupro and a list of parcel records with optional id_par; falsy
identifiers (None or the empty string) are skipped.  The owner map binds
each owner identifier to a Python set of parcel identifiers: an
identifier absent from the map is bound to the empty set first, then the
parcel identifiers of the entry are added to its set. -/

/-- One element of an entry "parcelles" array: parcelle_info.get("id_par"). -/
structure ParcelleInfo where
  id_par : Option String
deriving DecidableEq, Repr

/-- One element of the "proprietaires" array of a batch response. -/
structure OwnerEntry where
  id_dnupro : Option String
  parcelles : List ParcelleInfo
deriving DecidableEq, Repr

/-- Python truthiness of an optional string: None and the empty string
are falsy, and the code proceeds only on a truthy identifier. -/
def pyStrTruthy : Option String → Option String
  | none => none
  | some s => if s = "" then none else some s

/-- The owner map: insertion-ordered bindings of owner identifier to its
set of parcel identifiers. -/
abbrev OwnerMap : Type := List (String × Finset String)

/-- Dictionary membership test and read: owner_id in owner_map. -/
def lookupOwner : OwnerMap → String → Option (Finset String)
  | [], _ => none
  | (k, v) :: rest, oid => if k = oid then some v else lookupOwner rest oid

/-- In-place mutation of the set bound to an existing key. -/
def updateOwner : OwnerMap → String → (Finset String → Finset String) → OwnerMap
  | [], _, _ => []
  | (k, v) :: rest, oid, f =>
    if k = oid then (k, f v) :: rest else (k, v) :: updateOwner rest oid f

/-- The inner loop at src/data_fetcher.py lines 438-441: add every truthy
parcel identifier of the entry to the set. -/
def addParcelles (s : Finset String) : List ParcelleInfo → Finset String
  | [] => s
  | q :: qs =>
    match pyStrTruthy q.id_par with
    | some pid => addParcelles (insert pid s) qs
    | none => addParcelles s qs

/-- The body at src/data_fetcher.py lines 433-441 for one owner entry:
skip a falsy owner identifier, bind a fresh one to the empty set, then
add the parcel identifiers of the entry to its set. -/
def processEntry (m : OwnerMap) (e : OwnerEntry) : OwnerMap :=
  match pyStrTruthy e.id_dnupro with
  | none => m
  | some oid =>
    let m1 := match lookupOwner m oid with
      | some _ => m
      | none => m ++ [(oid, ∅)]
    updateOwner m1 oid (fun s => addParcelles s e.parcelles)

/-- All owner entries of one parsed batch response. -/
def processBatch (m : OwnerMap) (entries : List OwnerEntry) : OwnerMap :=
  entries.foldl processEntry m

/-- The owner map accumulated over the successful batch responses of one
commune, starting from the empty dictionary. -/
def fetch_proprietaires_owner_map (batches : List (List OwnerEntry)) : OwnerMap :=
  batches.foldl processBatch []

/-- An entry reports a parcel for an owner when its truthy owner
identifier is that owner and some truthy parcel identifier is that
parcel. -/
def reportsB (e : OwnerEntry) (oid pid : String) : Bool :=
  (pyStrTruthy e.id_dnupro == some oid) &&
    e.parcelles.any (fun q => pyStrTruthy q.id_par == some pid)

/-- reportsB unfolded to a proposition. -/
theorem reportsB_iff (e : OwnerEntry) (oid pid : String) :
    reportsB e oid pid = true ↔
      pyStrTruthy e.id_dnupro = some oid ∧
        ∃ q ∈ e.parcelles, pyStrTruthy q.id_par = some pid := by
  simp [reportsB]

/-- Lookup across the concatenation of two owner maps. -/
theorem lookupOwner_append (m l : OwnerMap) (oid : String) :
    lookupOwner (m ++ l) oid =
      match lookupOwner m oid with
      | some v => some v
      | none => lookupOwner l oid := by
  induction m with
  | nil => simp [lookupOwner]
  | cons kv rest ih =>
    obtain ⟨k, v⟩ := kv
    by_cases hk : k = oid <;> simp [lookupOwner, hk, ih]

/-- Lookup of the updated key maps the update over the previous value. -/
theorem lookupOwner_update_self (m : OwnerMap) (oid : String)
    (f : Finset String → Finset String) :
    lookupOwner (updateOwner m oid f) oid = (lookupOwner m oid).map f := by
  induction m with
  | nil => simp [lookupOwner, updateOwner]
  | cons kv rest ih =>
    obtain ⟨k, v⟩ := kv
    by_cases hk : k = oid <;> simp [lookupOwner, updateOwner, hk, ih]

/-- Lookup of any other key is untouched by an update. -/
theorem lookupOwner_update_other (m : OwnerMap) (oid oid' : String)
    (f : Finset String → Finset String) (hne : oid' ≠ oid) :
    lookupOwner (updateOwner m oid f) oid' = lookupOwner m oid' := by
  induction m with
  | nil => simp [lookupOwner, updateOwner]
  | cons kv rest ih =>
    obtain ⟨k, v⟩ := kv
    by_cases hk : k = oid
    · subst hk
      have : ¬(k = oid') := fun h => hne h.symm
      simp [lookupOwner, updateOwner, this]
    · by_cases hk2 : k = oid' <;> simp [lookupOwner, updateOwner, hk, hk2, hne, ih]

/-- Lookup after processing one entry: the entry touches exactly the
binding of its truthy owner identifier, replacing it by the previous set
(empty for a fresh owner) extended with the parcels of the entry. -/
theorem lookupOwner_processEntry (m : OwnerMap) (e : OwnerEntry) (oid : String) :
    lookupOwner (processEntry m e) oid =
      if pyStrTruthy e.id_dnupro = some oid then
        some (addParcelles ((lookupOwner m oid).getD ∅) e.parcelles)
      else lookupOwner m oid := by
  cases he : pyStrTruthy e.id_dnupro with
  | none => simp [processEntry, he]
  | some oid2 =>
    by_cases hoid : oid2 = oid
    · subst hoid
      cases hl : lookupOwner m oid2 with
      | some v =>
        simp only [processEntry, he, hl]
        rw [lookupOwner_update_self, hl]
        simp
      | none =>
        simp only [processEntry, he, hl]
        rw [lookupOwner_update_self, lookupOwner_append, hl]
        simp [lookupOwner]
    · have hne3 : oid ≠ oid2 := fun h => hoid h.symm
      rw [if_neg (show ¬(some oid2 = some oid) from
        fun hcon => hoid (Option.some_inj.mp hcon))]
      cases hl : lookupOwner m oid2 with
      | some v =>
        simp only [processEntry, he, hl]
        rw [lookupOwner_update_other _ _ _ _ hne3]
      | none =>
        simp only [processEntry, he, hl]
        rw [lookupOwner_update_other _ _ _ _ hne3, lookupOwner_append]
        cases hlo : lookupOwner m oid <;> simp [hlo, lookupOwner, hne3, hoid]

/-- Membership in the set after adding the parcels of one entry. -/
theorem mem_addParcelles (s : Finset String) (ps : List ParcelleInfo) (pid : String) :
    pid ∈ addParcelles s ps ↔
      pid ∈ s ∨ ∃ q ∈ ps, pyStrTruthy q.id_par = some pid := by
  induction ps generalizing s with
  | nil => simp [addParcelles]
  | cons q qs ih =>
    cases hq : pyStrTruthy q.id_par with
    | none =>
      rw [addParcelles, hq, ih]
      simp [hq]
    | some pid2 =>
      rw [addParcelles, hq, ih]
      simp only [Finset.mem_insert, List.mem_cons]
      constructor
      · rintro ((rfl | hp) | hrep)
        · exact Or.inr ⟨q, Or.inl rfl, by rw [hq]⟩
        · exact Or.inl hp
        · rcases hrep with ⟨q2, hq2, hr⟩
          exact Or.inr ⟨q2, Or.inr hq2, hr⟩
      · rintro (hp | ⟨q2, (rfl | hq2), hr⟩)
        · exact Or.inl (Or.inr hp)
        · rw [hq] at hr
          exact Or.inl (Or.inl (Option.some_inj.mp hr).symm)
        · exact Or.inr ⟨q2, hq2, hr⟩

/-- Lookup and membership after folding a list of owner entries: the set
bound to an owner collects exactly the previously bound identifiers and
every parcel reported for that owner by some entry of the list. -/
theorem lookupOwner_foldl_processEntry (es : List OwnerEntry) (m : OwnerMap)
    (oid : String) :
    ∀ s, lookupOwner (es.foldl processEntry m) oid = some s →
      ∀ pid, (pid ∈ s ↔
        (∃ s0, lookupOwner m oid = some s0 ∧ pid ∈ s0) ∨
        ∃ e ∈ es, reportsB e oid pid = true) := by
  induction es generalizing m with
  | nil =>
    intro s hs pid
    rw [List.foldl_nil] at hs
    constructor
    · intro hp
      exact Or.inl ⟨s, hs, hp⟩
    · rintro (⟨s0, hs0, hp⟩ | ⟨e, he, _⟩)
      · rw [hs] at hs0
        exact (Option.some_inj.mp hs0) ▸ hp
      · simp at he
  | cons e es ih =>
    intro s hs pid
    rw [List.foldl_cons] at hs
    rw [ih (processEntry m e) s hs pid, lookupOwner_processEntry]
    have hgetD : ∀ m' : OwnerMap, pid ∈ (lookupOwner m' oid).getD ∅ ↔
        ∃ s0, lookupOwner m' oid = some s0 ∧ pid ∈ s0 := by
      intro m'
      cases hl : lookupOwner m' oid <;> simp [hl]
    by_cases he : pyStrTruthy e.id_dnupro = some oid
    · rw [if_pos he]
      constructor
      · rintro (⟨s0, hs0, hp⟩ | ⟨e2, he2, hr⟩)
        · rw [Option.some_inj.mp hs0.symm] at hp
          rcases (mem_addParcelles _ _ _).mp hp with hp0 | hrep
          · exact Or.inl ((hgetD m).mp hp0)
          · exact Or.inr ⟨e, List.mem_cons_self e es,
              (reportsB_iff e oid pid).mpr ⟨he, hrep⟩⟩
        · exact Or.inr ⟨e2, List.mem_cons_of_mem e he2, hr⟩
      · rintro (⟨s0, hs0, hp⟩ | ⟨e2, he2, hr⟩)
        · exact Or.inl ⟨_, rfl,
            (mem_addParcelles _ _ _).mpr (Or.inl ((hgetD m).mpr ⟨s0, hs0, hp⟩))⟩
        · rcases List.mem_cons.mp he2 with rfl | he2
          · obtain ⟨_, hrep⟩ := (reportsB_iff e2 oid pid).mp hr
            exact Or.inl ⟨_, rfl, (mem_addParcelles _ _ _).mpr (Or.inr hrep)⟩
          · exact Or.inr ⟨e2, he2, hr⟩
    · rw [if_neg he]
      constructor
      · rintro (h | ⟨e2, he2, hr⟩)
        · exact Or.inl h
        · exact Or.inr ⟨e2, List.mem_cons_of_mem e he2, hr⟩
      · rintro (h | ⟨e2, he2, hr⟩)
        · exact Or.inl h
        · rcases List.mem_cons.mp he2 with rfl | he2
          · obtain ⟨hid, _⟩ := (reportsB_iff e2 oid pid).mp hr
            exact absurd hid he
          · exact Or.inr ⟨e2, he2, hr⟩

/-- Folding batch by batch is folding over the concatenated entries. -/
theorem foldl_processBatch_flatten (batches : List (List OwnerEntry)) (m : OwnerMap) :
    batches.foldl processBatch m = batches.flatten.foldl processEntry m := by
  induction batches generalizing m with
  | nil => rfl
  | cons b bs ih =>
    rw [List.foldl_cons, ih, List.flatten_cons, List.foldl_append]
    rfl

/-- Claim C6: in the accumulated owner map, each owner is bound to a set
of parcel identifiers (duplicates are impossible by construction, as
with the Python set), and that set contains exactly the parcel
identifiers reported for that owner by some entry of some batch: an
owner reported in several batches accumulates by set union, even when
the same parcel identifier is reported for it repeatedly. -/
theorem fetch_proprietaires_owner_map_spec (batches : List (List OwnerEntry))
    (oid : String) (s : Finset String)
    (h : lookupOwner (fetch_proprietaires_owner_map batches) oid = some s) :
    ∀ pid, pid ∈ s ↔ ∃ b ∈ batches, ∃ e ∈ b, reportsB e oid pid = true := by
  intro pid
  rw [fetch_proprietaires_owner_map, foldl_processBatch_flatten] at h
  rw [lookupOwner_foldl_processEntry batches.flatten [] oid s h pid]
  constructor
  · rintro (⟨s0, hs0, _⟩ | ⟨e, he, hr⟩)
    · simp [lookupOwner] at hs0
    · obtain ⟨b, hb, he2⟩ := List.mem_flatten.mp he
      exact ⟨b, hb, e, he2, hr⟩
  · rintro ⟨b, hb, e, he, hr⟩
    exact Or.inr ⟨e, List.mem_flatten.mpr ⟨b, hb, he⟩, hr⟩

/-- Witness for C6: the same owner over two batches, with one parcel
reported twice; the accumulated set holds exactly the reported parcels. -/
theorem fetch_proprietaires_owner_map_spec_witness :
    ∃ s : Finset String,
      lookupOwner
          (fetch_proprietaires_owner_map
            [[(⟨some "o", [⟨some "p"⟩]⟩ : OwnerEntry)],
              [(⟨some "o", [⟨some "p"⟩, ⟨some "q"⟩]⟩ : OwnerEntry)]]) "o" = some s ∧
      ("q" ∈ s ↔
        ∃ b ∈ [[(⟨some "o", [⟨some "p"⟩]⟩ : OwnerEntry)],
            [(⟨some "o", [⟨some "p"⟩, ⟨some "q"⟩]⟩ : OwnerEntry)]],
          ∃ e ∈ b, reportsB e "o" "q" = true) :=
  ⟨_, rfl,
    fetch_proprietaires_owner_map_spec
      [[(⟨some "o", [⟨some "p"⟩]⟩ : OwnerEntry)],
        [(⟨some "o", [⟨some "p"⟩, ⟨some "q"⟩]⟩ : OwnerEntry)]]
      "o" _ rfl "q"⟩
